import Mathlib

/-!
Verification of the BleachBit secure-erasure engine (bleachbit/WindowsWipe.py and
bleachbit/FileUtilities.py) against its natural-language specification.

The Python functions are shallowly embedded as executable Lean definitions.
Machine integers are modelled as `Int`/`Nat` (Python integers are unbounded, so
no wrap-around is needed).  Windows API effects (file handles, volume bitmaps,
rename results, defrag moves) are modelled by explicit oracles and state
records.  Python `assert` statements are debug-only checks (`python -O` removes
them) and are modelled as hypotheses or omitted where the statement is
insensitive to them; each definition notes its source lines.
-/

namespace BleachBit

/-- `WRITE_BUF_SIZE = 512 * 1024` (WindowsWipe.py line 136). -/
def WRITE_BUF_SIZE : ℕ := 512 * 1024

/-!
## write_zero_fill (WindowsWipe.py lines 935-981)

The loop writes chunks of `WRITE_BUF_SIZE` bytes, and a final shorter chunk,
until `write_length_bytes` bytes have been written.  We model the sequence of
chunk sizes passed to `WriteFile`; `WriteFile` reports `bytes_written ==
len(write_string)`, so the total number of bytes written is the sum of the
chunk sizes.
-/

/-- Chunk sizes written by `write_zero_fill` for a request of `n` bytes
(WindowsWipe.py lines 964-978). -/
def write_zero_fill (n : ℕ) : List ℕ :=
  if n = 0 then []
  else if WRITE_BUF_SIZE ≤ n then
    WRITE_BUF_SIZE :: write_zero_fill (n - WRITE_BUF_SIZE)
  else [n]
termination_by n
decreasing_by
  have hb : 0 < WRITE_BUF_SIZE := by norm_num [WRITE_BUF_SIZE]
  omega

/-- The total number of bytes written by `write_zero_fill n` is exactly `n`. -/
theorem write_zero_fill_sum (n : ℕ) : (write_zero_fill n).sum = n := by
  induction n using Nat.strong_induction_on with
  | _ n ih =>
    rw [write_zero_fill]
    split
    · simp [*]
    · split
      · rename_i h0 hle
        have hb : 0 < WRITE_BUF_SIZE := by norm_num [WRITE_BUF_SIZE]
        rw [List.sum_cons, ih (n - WRITE_BUF_SIZE) (by omega)]
        omega
      · simp

/-!
## wipe_file_direct (WindowsWipe.py lines 984-1025)

The `for` loop over the extents repeatedly assigns `write_length`; the single
call `write_zero_fill(file_handle, write_length)` stands after (outside) the
loop, so only the final assignment is ever written.  When the extent list is
empty, `write_length = file_size`.  We model the write length that reaches
`write_zero_fill` and the resulting total of bytes written.
-/

/-- The value of `write_length` at the call site (WindowsWipe.py lines
1011-1025): the loop body at line 1019 overwrites `write_length` on each
iteration and `write_zero_fill` is invoked once, after the loop, at line 1025. -/
def wipe_file_direct_write_length (extents : List (ℤ × ℤ))
    (cluster_size file_size : ℕ) : ℤ :=
  match extents with
  | [] => (file_size : ℤ)
  | _ :: _ => extents.foldl (fun _acc p => (p.2 - p.1 + 1) * (cluster_size : ℤ)) 0

/-- Total bytes of zeros written through the handle by `wipe_file_direct`. -/
def wipe_file_direct_total_written (extents : List (ℤ × ℤ))
    (cluster_size file_size : ℕ) : ℕ :=
  (write_zero_fill (wipe_file_direct_write_length extents cluster_size file_size).toNat).sum

/-- Sum over all extents of (length in clusters) times the cluster size —
the total that the specification claims is written. -/
def spec_extents_byte_sum (extents : List (ℤ × ℤ)) (cluster_size : ℕ) : ℤ :=
  (extents.map (fun p => (p.2 - p.1 + 1) * (cluster_size : ℤ))).sum

/-- C1: the direct wipe strategy is claimed to write `Σ extent_lengths ×
cluster_size` zero bytes when the extent list is non-empty.  On the extent
list `[(0,0),(10,10)]` with cluster size 4096 the code writes only 4096 bytes
(the last extent's length) because the `write_zero_fill` call at line 1025
stands outside the `for` loop, while the claimed sum is 8192. -/
theorem c1_wipe_file_direct_writes_only_last_extent :
    wipe_file_direct_total_written [((0:ℤ), (0:ℤ)), (10, 10)] 4096 8192 = 4096 ∧
    spec_extents_byte_sum [((0:ℤ), (0:ℤ)), (10, 10)] 4096 = 8192 ∧
    (4096 : ℕ) ≠ 8192 := by
  refine ⟨?_, by norm_num [spec_extents_byte_sum], by norm_num⟩
  have h1 : wipe_file_direct_write_length [((0:ℤ), (0:ℤ)), (10, 10)] 4096 8192 = 4096 := by
    norm_num [wipe_file_direct_write_length]
  rw [wipe_file_direct_total_written, h1]
  show (write_zero_fill 4096).sum = 4096
  exact write_zero_fill_sum 4096

/-!
## wipe_write (FileUtilities.py lines 813-830, inner function of wipe_contents)

`size = getsize(path)`; the loop `while size > 0: f.write(blanks); size -= 4096`
writes whole 4096-byte blocks; `size` may go negative on the final iteration in
Python, which ends the loop exactly as Nat truncated subtraction does here, so
the chunk sequence is identical.
-/

/-- Chunk sizes written by `wipe_write` for a file of `size` bytes
(FileUtilities.py lines 822-825): full 4096-byte blocks until the running
count is exhausted. -/
def wipe_write (size : ℕ) : List ℕ :=
  if size = 0 then [] else 4096 :: wipe_write (size - 4096)
termination_by size
decreasing_by omega

/-- Total bytes written by `wipe_write` on a file of `n` bytes: the number of
4-KiB blocks is `⌈n/4096⌉`, so the total is `4096 * ⌈n/4096⌉`. -/
theorem wipe_write_sum (n : ℕ) : (wipe_write n).sum = 4096 * ((n + 4095) / 4096) := by
  induction n using Nat.strong_induction_on with
  | _ n ih =>
    rw [wipe_write]
    split
    · simp [*]
    · rename_i h0
      have := ih (n - 4096) (by omega)
      simp [this]
      omega

/-- C4 counterexample: on a 1-byte file, `wipe_write` writes one full 4096-byte
block, not exactly `getsize(path) = 1` bytes as claimed. -/
theorem c4_counterexample_one_byte_file :
    (wipe_write 1).sum = 4096 ∧ (4096 : ℕ) ≠ 1 := by
  constructor
  · rw [wipe_write_sum]
  · norm_num

/-- C4 (amended): `wipe_write` writes 4-KiB zero blocks only — every chunk is
exactly 4096 bytes — and the total written is `4096 * ⌈getsize(path)/4096⌉`,
which is at least `getsize(path)` and less than `getsize(path) + 4096`;
it equals `getsize(path)` exactly when the size is a multiple of 4096. -/
theorem c4_wipe_write_rounds_up_to_block :
    ∀ n : ℕ, (∀ c ∈ wipe_write n, c = 4096) ∧
      (wipe_write n).sum = 4096 * ((n + 4095) / 4096) ∧
      n ≤ (wipe_write n).sum ∧ (wipe_write n).sum < n + 4096 := by
  intro n
  refine ⟨?_, wipe_write_sum n, ?_, ?_⟩
  · induction n using Nat.strong_induction_on with
    | _ n ih =>
      rw [wipe_write]
      split
      · simp
      · rename_i h0
        intro c hc
        rcases List.mem_cons.mp hc with h | h
        · exact h
        · exact ih (n - 4096) (by omega) c h
  · rw [wipe_write_sum]; omega
  · rw [wipe_write_sum]; omega

/-- C4 witness at the concrete size 1. -/
theorem c4_wipe_write_rounds_up_to_block_witness :
    (∀ c ∈ wipe_write 1, c = 4096) ∧
    (wipe_write 1).sum = 4096 * ((1 + 4095) / 4096) ∧
    1 ≤ (wipe_write 1).sum ∧ (wipe_write 1).sum < 1 + 4096 :=
  c4_wipe_write_rounds_up_to_block 1

/-!
## logical_ranges_to_extents, non-bridged branch (WindowsWipe.py lines 174-190)

Input: `(next_vcn, lcn)` pairs.  A running `vcn_count` starts at 0; an entry
with `lcn < 0` only advances `vcn_count`; any other entry emits the extent
`(lcn, lcn + (next_vcn - vcn_count) - 1)` and advances `vcn_count`.  The
`bridge_compressed=True` branch (lines 192-235) is not needed by the claims
about this function and is not modelled.  The `assert this_vcn_span >= 0`
at line 188 is a debug check; the length-sum identity proved below holds
over `Int` for every input, whether or not the check would pass.
-/

/-- The generator loop of `logical_ranges_to_extents` with running
`vcn_count = prev` (WindowsWipe.py lines 175-190). -/
def logical_ranges_go (prev : ℤ) : List (ℤ × ℤ) → List (ℤ × ℤ)
  | [] => []
  | (vcn, lcn) :: rest =>
    if lcn < 0 then logical_ranges_go vcn rest
    else (lcn, lcn + (vcn - prev) - 1) :: logical_ranges_go vcn rest

/-- `logical_ranges_to_extents(ranges)` with `bridge_compressed=False`
(WindowsWipe.py lines 163-190); `vcn_count` starts at 0. -/
def logical_ranges_to_extents (ranges : List (ℤ × ℤ)) : List (ℤ × ℤ) :=
  logical_ranges_go 0 ranges

/-- Length in clusters of an inclusive extent. -/
def extent_length (p : ℤ × ℤ) : ℤ := p.2 - p.1 + 1

/-- Sum of the lengths of a list of extents. -/
def sum_of_lengths (l : List (ℤ × ℤ)) : ℤ := (l.map extent_length).sum

/-- Modelled from the spec: the sum of VCN spans `next_vcn_i − prev_vcn_i`
over exactly the entries whose `lcn` is non-negative, where the previous VCN
count starts at `prev` and every entry (hole or not) advances it to its
`next_vcn`. -/
def spec_vcn_span_sum (prev : ℤ) : List (ℤ × ℤ) → ℤ
  | [] => 0
  | (vcn, lcn) :: rest =>
    (if lcn < 0 then 0 else vcn - prev) + spec_vcn_span_sum vcn rest

theorem logical_ranges_go_sum (ranges : List (ℤ × ℤ)) :
    ∀ prev : ℤ, sum_of_lengths (logical_ranges_go prev ranges) =
      spec_vcn_span_sum prev ranges := by
  induction ranges with
  | nil => intro prev; simp [logical_ranges_go, spec_vcn_span_sum, sum_of_lengths]
  | cons head rest ih =>
    intro prev
    obtain ⟨vcn, lcn⟩ := head
    by_cases h : lcn < 0
    · simp [logical_ranges_go, spec_vcn_span_sum, h, ih]
    · simp [logical_ranges_go, spec_vcn_span_sum, h, sum_of_lengths,
        extent_length] at *
      rw [ih]
      ring

/-- C5: for every `(next_vcn, lcn)` list starting at VCN 0 (without bridging),
the sum of the lengths of the extents emitted by `logical_ranges_to_extents`
equals the sum of the VCN spans over exactly the entries with `lcn ≥ 0`. -/
theorem c5_logical_ranges_length_sum (ranges : List (ℤ × ℤ)) :
    sum_of_lengths (logical_ranges_to_extents ranges) = spec_vcn_span_sum 0 ranges :=
  logical_ranges_go_sum ranges 0

/-- C5 witness at a concrete range list with one compression hole. -/
theorem c5_logical_ranges_length_sum_witness :
    sum_of_lengths (logical_ranges_to_extents [((3:ℤ), (100:ℤ)), (5, -1), (9, 200)]) =
      spec_vcn_span_sum 0 [((3:ℤ), (100:ℤ)), (5, -1), (9, 200)] :=
  c5_logical_ranges_length_sum [((3:ℤ), (100:ℤ)), (5, -1), (9, 200)]

/-!
## extents_a_minus_b (WindowsWipe.py lines 240-286)

Both inputs are sorted by start (Python's stable `sorted` with
`key=itemgetter(0)`; modelled as an insertion sort on the first component).
The inner `for` loop over `b_sorted` trims the current `a` range; note that if
the inner loop runs off the end of `b_sorted` without hitting the
`b_begin > a_end` case, the (remainder of the) current `a` range is never
yielded — the loop body has no trailing `else` — which the embedding below
reproduces faithfully with its `[]` base case.
-/

/-- Stable insertion into a list sorted by first component. -/
def insert_by_fst (p : ℤ × ℤ) : List (ℤ × ℤ) → List (ℤ × ℤ)
  | [] => [p]
  | q :: t => if q.1 ≤ p.1 then q :: insert_by_fst p t else p :: q :: t

/-- Python's stable `sorted(l, key=itemgetter(0))`. -/
def sort_by_fst (l : List (ℤ × ℤ)) : List (ℤ × ℤ) := l.foldr insert_by_fst []

/-- The inner loop of `extents_a_minus_b` (WindowsWipe.py lines 260-286):
scan the sorted `b` ranges, trimming the current `a` range
`(a_begin, a_end)`; yields are collected in order. -/
def a_minus_b_inner (a_begin a_end : ℤ) : List (ℤ × ℤ) → List (ℤ × ℤ)
  | [] => []
  | (b_begin, b_end) :: rest =>
    if b_begin > a_end then [(a_begin, a_end)]
    else if b_end < a_begin then a_minus_b_inner a_begin a_end rest
    else if b_begin ≤ a_begin then
      (if b_end ≥ a_end then [] else a_minus_b_inner (b_end + 1) a_end rest)
    else
      (a_begin, b_begin - 1) ::
        (if b_end ≥ a_end then [] else a_minus_b_inner (b_end + 1) a_end rest)

/-- `extents_a_minus_b(a, b)` (WindowsWipe.py lines 240-286).  For each range
of the sorted `a`: if `b` is empty the range is yielded unchanged (line
256-258), and then the inner loop over the sorted `b` runs (yielding nothing
when `b` is empty). -/
def extents_a_minus_b (a b : List (ℤ × ℤ)) : List (ℤ × ℤ) :=
  (sort_by_fst a).flatMap (fun p =>
    (if b = [] then [(p.1, p.2)] else []) ++ a_minus_b_inner p.1 p.2 (sort_by_fst b))

/-- Cluster `c` lies in some extent of the list. -/
def in_clusters (l : List (ℤ × ℤ)) (c : ℤ) : Prop :=
  ∃ p ∈ l, p.1 ≤ c ∧ c ≤ p.2

instance (l : List (ℤ × ℤ)) (c : ℤ) : Decidable (in_clusters l c) := by
  unfold in_clusters
  infer_instance

/-- C3: the claim states that for non-overlapping extent lists the clusters of
`extents_a_minus_b(a, b)` together with the clusters of `a` lying in `b` are
exactly the clusters of `a`.  With `a = [(0,10)]` and `b = [(0,5)]` the
function returns the empty list — the inner loop exhausts `b` after trimming
`a_begin` to 6 and the remainder `(6,10)` is never yielded — so cluster 6,
which is in `a` and not in `b`, is missing from both sides of the claimed
union. -/
theorem c3_extents_a_minus_b_drops_trailing_range :
    extents_a_minus_b [((0:ℤ), (10:ℤ))] [(0, 5)] = [] ∧
    in_clusters [((0:ℤ), (10:ℤ))] 6 ∧
    ¬ in_clusters [((0:ℤ), (5:ℤ))] 6 ∧
    ¬ in_clusters (extents_a_minus_b [((0:ℤ), (10:ℤ))] [(0, 5)]) 6 := by
  refine ⟨by decide, by decide, by decide, by decide⟩

/-!
## split_extent (WindowsWipe.py lines 339-357)

`split_factor = 10`.  The loop `while count > split_factor**(exponent + 1.3):
exponent += 1` compares the integer `count` against the Python float
`10.0**(exponent + 1.3)`.  For an integer `count` and a positive float `t`,
`count > t` iff `count > floor(t)`, so the float threshold is modelled by the
integer `float_threshold k = floor(10^k * 19.952623149688797)`, where
19.952623149688797 is the binary64 value of `10**1.3`.  (For astronomically
large exponents the directly computed float `10**(k+1.3)` can differ from
`10^k * 10**1.3` by a few units in the last place; every property proved below
depends only on `float_threshold 0 = 19` and on the threshold growing at least
like `19 * 10^k`, which hold for either reading.)  Then
`extent_size = 10**exponent` and the loop `for x in range(lcn_start,
lcn_end + 1, extent_size)` yields `(x, min(x + extent_size - 1, lcn_end))`.
-/

/-- Largest integer not exceeding the float `10**(k + 1.3)`
(the loop guard of WindowsWipe.py line 353). -/
def float_threshold (k : ℕ) : ℕ := 19952623149688797 * 10 ^ k / 10 ^ 15

/-- The `while` loop of WindowsWipe.py lines 351-354: starting from exponent
`k`, increment while `count > float_threshold k`.  The fuel is only a bound on
the number of iterations; `exponent_for` supplies `n`, which always suffices. -/
def exp_search (n : ℕ) : ℕ → ℕ → ℕ
  | 0, k => k
  | fuel + 1, k => if float_threshold k < n then exp_search n fuel (k + 1) else k

/-- The exponent computed by WindowsWipe.py lines 349-354 for a span of
`n = lcn_end - lcn_start + 1` clusters. -/
def exponent_for (n : ℕ) : ℕ := exp_search n n 0

/-- The `for x in range(lcn_start, lcn_end + 1, extent_size)` loop of
WindowsWipe.py lines 356-357, yielding `(x, min(x + step - 1, e))`. -/
def split_go (step e : ℤ) : ℕ → ℤ → List (ℤ × ℤ)
  | 0, _ => []
  | fuel + 1, x =>
    if x ≤ e then (x, min (x + step - 1) e) :: split_go step e fuel (x + step) else []

/-- `split_extent(lcn_start, lcn_end)` (WindowsWipe.py lines 339-357). -/
def split_extent (s e : ℤ) : List (ℤ × ℤ) :=
  split_go ((10 : ℤ) ^ exponent_for (e - s + 1).toNat) e (e - s + 1).toNat s

theorem float_threshold_zero : float_threshold 0 = 19 := by
  norm_num [float_threshold]

theorem float_threshold_lower (k : ℕ) : 19 * 10 ^ k ≤ float_threshold k := by
  unfold float_threshold
  rw [Nat.le_div_iff_mul_le (by positivity)]
  calc 19 * 10 ^ k * 10 ^ 15 = 19 * 10 ^ 15 * 10 ^ k := by ring
    _ ≤ 19952623149688797 * 10 ^ k := by
        have : (19 * 10 ^ 15 : ℕ) ≤ 19952623149688797 := by norm_num
        exact Nat.mul_le_mul_right _ this

theorem exp_search_le_self (n : ℕ) : ∀ fuel k, k ≤ exp_search n fuel k := by
  intro fuel
  induction fuel with
  | zero => intro k; simp [exp_search]
  | succ fuel ih =>
    intro k
    rw [exp_search]
    split
    · exact le_trans (Nat.le_succ k) (ih (k + 1))
    · exact le_refl k

theorem exp_search_crossed (n : ℕ) : ∀ fuel k j, k ≤ j → j < exp_search n fuel k →
    float_threshold j < n := by
  intro fuel
  induction fuel with
  | zero => intro k j hkj hlt; rw [exp_search] at hlt; omega
  | succ fuel ih =>
    intro k j hkj hlt
    rw [exp_search] at hlt
    split at hlt
    · rcases Nat.eq_or_lt_of_le hkj with rfl | hkj'
      · assumption
      · exact ih (k + 1) j hkj' hlt
    · omega

/-- If the exponent loop does not run at all (result 0) on a positive span,
the span is at most `float_threshold 0 = 19`. -/
theorem exponent_for_eq_zero_le (n : ℕ) (h1 : 1 ≤ n) (h0 : exponent_for n = 0) :
    n ≤ 19 := by
  unfold exponent_for at h0
  obtain ⟨m, rfl⟩ : ∃ m, n = m + 1 := ⟨n - 1, by omega⟩
  rw [exp_search] at h0
  split at h0
  · have h1 := exp_search_le_self (m + 1) m (0 + 1)
    omega
  · rename_i hguard
    rw [float_threshold_zero] at hguard
    omega

/-- On a span of at least two clusters the chosen sub-extent size
`10 ^ exponent` is strictly smaller than the span. -/
theorem pow_exponent_lt (n : ℕ) (h2 : 2 ≤ n) : 10 ^ exponent_for n < n := by
  rcases Nat.eq_zero_or_pos (exponent_for n) with h0 | hpos
  · rw [h0]; simpa using h2
  · obtain ⟨j, hj⟩ : ∃ j, exponent_for n = j + 1 := ⟨exponent_for n - 1, by omega⟩
    have hcross : float_threshold j < n := by
      apply exp_search_crossed n n 0 j (Nat.zero_le j)
      unfold exponent_for at hj
      omega
    have hlow := float_threshold_lower j
    have hstep : 10 ^ (j + 1) ≤ 19 * 10 ^ j := by
      rw [pow_succ]
      calc 10 ^ j * 10 = 10 * 10 ^ j := by ring
        _ ≤ 19 * 10 ^ j := Nat.mul_le_mul_right _ (by norm_num)
    rw [hj]
    omega

theorem split_go_empty (step e : ℤ) (fuel : ℕ) (x : ℤ) (hx : e < x) :
    split_go step e fuel x = [] := by
  cases fuel with
  | zero => rfl
  | succ fuel => rw [split_go]; simp [not_le.mpr hx]

/-- Shape of every emitted piece: it starts no earlier than the cursor, is
non-empty, ends within `e`, and ends at `min (start + step - 1) e`. -/
theorem split_go_mem (step e : ℤ) (hstep : 1 ≤ step) :
    ∀ fuel x, ∀ p ∈ split_go step e fuel x,
      x ≤ p.1 ∧ p.1 ≤ p.2 ∧ p.2 ≤ e ∧ p.2 = min (p.1 + step - 1) e := by
  intro fuel
  induction fuel with
  | zero => intro x p hp; simp [split_go] at hp
  | succ fuel ih =>
    intro x p hp
    rw [split_go] at hp
    split at hp
    · rename_i hxe
      rcases List.mem_cons.mp hp with rfl | hp'
      · refine ⟨le_refl _, ?_, ?_, rfl⟩
        · simp only [le_min_iff]
          omega
        · exact min_le_right _ _
      · have := ih (x + step) p hp'
        refine ⟨by omega, this.2.1, this.2.2.1, this.2.2.2⟩
    · simp at hp

/-- Every cluster of `[x, e]` is covered, given enough fuel. -/
theorem split_go_covers (step e : ℤ) (hstep : 1 ≤ step) :
    ∀ fuel x, (e + 1 - x).toNat ≤ fuel →
      ∀ c : ℤ, x ≤ c → c ≤ e → ∃ p ∈ split_go step e fuel x, p.1 ≤ c ∧ c ≤ p.2 := by
  intro fuel
  induction fuel with
  | zero => intro x hfuel c hxc hce; omega
  | succ fuel ih =>
    intro x hfuel c hxc hce
    have hxe : x ≤ e := le_trans hxc hce
    rw [split_go, if_pos hxe]
    by_cases hc : c ≤ min (x + step - 1) e
    · exact ⟨(x, min (x + step - 1) e), List.mem_cons_self _ _, hxc, hc⟩
    · push_neg at hc
      have hc' : x + step ≤ c := by
        rcases le_or_lt (x + step - 1) e with h | h
        · rw [min_eq_left h] at hc; omega
        · rw [min_eq_right (le_of_lt h)] at hc; omega
      obtain ⟨p, hp, hcov⟩ := ih (x + step) (by omega) c hc' hce
      exact ⟨p, List.mem_cons_of_mem _ hp, hcov⟩

/-- The emitted pieces are pairwise disjoint and in increasing order. -/
theorem split_go_pairwise (step e : ℤ) (hstep : 1 ≤ step) :
    ∀ fuel x, (split_go step e fuel x).Pairwise (fun p q => p.2 < q.1) := by
  intro fuel
  induction fuel with
  | zero => intro x; simp [split_go]
  | succ fuel ih =>
    intro x
    rw [split_go]
    split
    · refine List.Pairwise.cons ?_ (ih (x + step))
      intro q hq
      have hq1 := (split_go_mem step e hstep fuel (x + step) q hq).1
      have : min (x + step - 1) e ≤ x + step - 1 := min_le_left _ _
      simp only []
      omega
    · simp

/-- Length count: the span is sandwiched by the piece count times the step. -/
theorem split_go_length (step e : ℤ) (hstep : 1 ≤ step) :
    ∀ fuel x, (e + 1 - x).toNat ≤ fuel → x ≤ e →
      e + 1 - x ≤ (split_go step e fuel x).length * step ∧
      ((split_go step e fuel x).length - 1 : ℤ) * step < e + 1 - x := by
  intro fuel
  induction fuel with
  | zero => intro x hfuel hxe; omega
  | succ fuel ih =>
    intro x hfuel hxe
    rw [split_go, if_pos hxe]
    by_cases hnext : x + step ≤ e
    · obtain ⟨h1, h2⟩ := ih (x + step) (by omega) hnext
      constructor
      · rw [List.length_cons]
        push_cast
        nlinarith
      · rw [List.length_cons]
        push_cast
        nlinarith
    · push_neg at hnext
      rw [split_go_empty step e fuel (x + step) hnext]
      simp only [List.length_cons, List.length_nil]
      push_cast
      constructor
      · nlinarith
      · nlinarith

theorem one_le_ten_pow (k : ℕ) : (1 : ℤ) ≤ 10 ^ k := by
  have := pow_pos (by norm_num : (0 : ℤ) < 10) k
  omega

/-- C6 counterexample: the claim says every sub-extent produced by
`split_extent` has a length that is a power of 10, but `split_extent(0, 24)`
(span 25, so sub-extent size 10) yields the final truncated piece `(20, 24)`
of length 5, which is not a power of 10. -/
theorem c6_counterexample_truncated_tail :
    ((20 : ℤ), (24 : ℤ)) ∈ split_extent 0 24 ∧
    ¬ ∃ k : ℕ, extent_length ((20 : ℤ), (24 : ℤ)) = (10 : ℤ) ^ k := by
  constructor
  · decide
  · rintro ⟨k, hk⟩
    have h5 : extent_length ((20 : ℤ), (24 : ℤ)) = 5 := by decide
    rw [h5] at hk
    cases k with
    | zero => norm_num at hk
    | succ k =>
      have h1 := one_le_ten_pow k
      have : (10 : ℤ) ^ (k + 1) = 10 * 10 ^ k := by ring
      omega

/-- C6 (amended): for `s ≤ e`, the sub-extents produced by `split_extent(s,e)`
cover exactly the inclusive range `[s..e]`, are pairwise non-overlapping (and
emitted in increasing order), each has length between 1 and
`10 ^ exponent`, each except possibly the final piece (the one ending at `e`)
has length exactly a power of 10, and their count is at most
`⌈(e - s + 1) / 10⌉ + 18`. -/
theorem c6_split_extent_properties (s e : ℤ) (h : s ≤ e) :
    (∀ c : ℤ, in_clusters (split_extent s e) c ↔ (s ≤ c ∧ c ≤ e)) ∧
    (split_extent s e).Pairwise (fun p q => p.2 < q.1) ∧
    (∀ p ∈ split_extent s e,
      (1 ≤ extent_length p ∧ extent_length p ≤ (10 : ℤ) ^ exponent_for (e - s + 1).toNat) ∧
      (p.2 = e ∨ ∃ k : ℕ, extent_length p = (10 : ℤ) ^ k)) ∧
    (split_extent s e).length ≤ ((e - s + 1).toNat + 9) / 10 + 18 := by
  set n : ℕ := (e - s + 1).toNat with hn
  set step : ℤ := (10 : ℤ) ^ exponent_for n with hstepdef
  have hstep : 1 ≤ step := one_le_ten_pow _
  have hspan : (n : ℤ) = e - s + 1 := by omega
  have hfuel : (e + 1 - s).toNat ≤ n := by omega
  refine ⟨?_, split_go_pairwise step e hstep n s, ?_, ?_⟩
  · intro c
    constructor
    · rintro ⟨p, hp, hc1, hc2⟩
      have hm := split_go_mem step e hstep n s p hp
      exact ⟨le_trans hm.1 hc1, le_trans hc2 hm.2.2.1⟩
    · rintro ⟨hc1, hc2⟩
      exact split_go_covers step e hstep n s hfuel c hc1 hc2
  · intro p hp
    have hm := split_go_mem step e hstep n s p hp
    refine ⟨⟨by unfold extent_length; omega, ?_⟩, ?_⟩
    · have : p.2 ≤ p.1 + step - 1 := hm.2.2.2 ▸ min_le_left _ _
      unfold extent_length
      omega
    · rcases min_choice (p.1 + step - 1) e with hmin | hmin
      · right
        refine ⟨exponent_for n, ?_⟩
        have : p.2 = p.1 + step - 1 := by rw [hm.2.2.2, hmin]
        unfold extent_length
        rw [this, hstepdef]
        ring
      · left
        rw [hm.2.2.2, hmin]
  · obtain ⟨hlen1, hlen2⟩ := split_go_length step e hstep n s hfuel h
    set L : ℕ := (split_go step e n s).length with hL
    have hSE : (split_extent s e).length = L := rfl
    rw [hSE]
    have hL1 : 1 ≤ L := by
      rcases Nat.eq_zero_or_pos L with h0 | h1
      · rw [h0] at hlen1; push_cast at hlen1; omega
      · exact h1
    rcases Nat.eq_zero_or_pos (exponent_for n) with hexp | hexp
    · -- sub-extent size 1: the span is at most 19, count equals the span
      have hstep1 : step = 1 := by rw [hstepdef, hexp, pow_zero]
      rw [hstep1, mul_one] at hlen1 hlen2
      have hn19 : n ≤ 19 := exponent_for_eq_zero_le n (by omega) hexp
      omega
    · -- sub-extent size at least 10
      have hstep10 : (10 : ℤ) ≤ step := by
        obtain ⟨j, hj⟩ : ∃ j, exponent_for n = j + 1 :=
          ⟨exponent_for n - 1, by omega⟩
        rw [hstepdef, hj, pow_succ]
        have := one_le_ten_pow j
        nlinarith
      have h10 : ((L : ℤ) - 1) * 10 ≤ ((L : ℤ) - 1) * step :=
        mul_le_mul_of_nonneg_left hstep10 (by omega)
      have := lt_of_le_of_lt h10 hlen2
      omega

/-- C6 witness at the concrete extent `(0, 24)`. -/
theorem c6_split_extent_properties_witness :
    (∀ c : ℤ, in_clusters (split_extent 0 24) c ↔ ((0 : ℤ) ≤ c ∧ c ≤ 24)) ∧
    (split_extent 0 24).Pairwise (fun p q => p.2 < q.1) ∧
    (∀ p ∈ split_extent 0 24,
      (1 ≤ extent_length p ∧
        extent_length p ≤ (10 : ℤ) ^ exponent_for ((24 : ℤ) - 0 + 1).toNat) ∧
      (p.2 = 24 ∨ ∃ k : ℕ, extent_length p = (10 : ℤ) ^ k)) ∧
    (split_extent 0 24).length ≤ (((24 : ℤ) - 0 + 1).toNat + 9) / 10 + 18 :=
  c6_split_extent_properties 0 24 (by norm_num)

/-- Every piece of `split_extent s e` with `s < e` spans strictly fewer
clusters than `(s, e)` itself: piece lengths are bounded by `10 ^ exponent`,
which is strictly below the span (`pow_exponent_lt`).  This is the decreasing
measure for the recursion in `wipe_extent_by_defrag`. -/
theorem split_extent_mem_smaller (s e : ℤ) (hlt : s < e) (p : ℤ × ℤ)
    (hp : p ∈ split_extent s e) :
    (p.2 - p.1 + 1).toNat < (e - s + 1).toNat := by
  set n : ℕ := (e - s + 1).toNat with hn
  set step : ℤ := (10 : ℤ) ^ exponent_for n with hstepdef
  have hstep : 1 ≤ step := one_le_ten_pow _
  have hm := split_go_mem step e hstep n s p hp
  have hlen : p.2 - p.1 + 1 ≤ step := by
    have : p.2 ≤ p.1 + step - 1 := hm.2.2.2 ▸ min_le_left _ _
    omega
  have hcast : ((10 ^ exponent_for n : ℕ) : ℤ) = step := by
    rw [hstepdef]; push_cast; ring
  have hsmall : 10 ^ exponent_for n < n := pow_exponent_lt n (by omega)
  omega

/-!
## wipe_extent_by_defrag (WindowsWipe.py lines 1029-1131)

The Windows state is abstracted: the volume bitmap snapshot is the predicate
`alloc : ℤ → Bool` (the result of `check_mapped_bit` on the bitmap fetched at
line 1063; `SIMULATE_CONCURRENCY` is `False`, so `check_extents` at lines
1069-1070 tallies exactly the clusters of `[(lcn_start, lcn_end)]`), and
`move_fails s e` tells whether some `move_file` call inside the loop over the
zero-fill file's extents (lines 1097-1127) raises.  The recursion over
`split_extent` (lines 1081-1084 and 1117-1120) discards the recursive results
and returns `True`, as the source does.  Totality of this definition — checked
by the decreasing measure `(e - s + 1).toNat` — is the termination property
claimed for the function.
-/

/-- The clusters `range(lcn_start, lcn_end + 1)` iterated by `check_extents`
(WindowsWipe.py line 373). -/
def cluster_list (s e : ℤ) : List ℤ :=
  (List.range (e + 1 - s).toNat).map (fun i : ℕ => s + (i : ℤ))

theorem mem_cluster_list (s e c : ℤ) : c ∈ cluster_list s e ↔ s ≤ c ∧ c ≤ e := by
  unfold cluster_list
  constructor
  · intro hc
    obtain ⟨i, hi, h⟩ := List.mem_map.mp hc
    rw [List.mem_range] at hi
    omega
  · rintro ⟨h1, h2⟩
    apply List.mem_map.mpr
    refine ⟨(c - s).toNat, ?_, ?_⟩
    · rw [List.mem_range]; omega
    · omega

/-- `count_allocated` of `check_extents([(s, e)], bitmap)`
(WindowsWipe.py lines 371-384). -/
def count_allocated (alloc : ℤ → Bool) (s e : ℤ) : ℕ :=
  ((cluster_list s e).filter alloc).length

/-- `count_free` of `check_extents([(s, e)], bitmap)`
(WindowsWipe.py lines 371-384). -/
def count_free (alloc : ℤ → Bool) (s e : ℤ) : ℕ :=
  ((cluster_list s e).filter (fun c => ! alloc c)).length

theorem count_free_eq_zero_iff (alloc : ℤ → Bool) (s e : ℤ) :
    count_free alloc s e = 0 ↔ ∀ c : ℤ, s ≤ c → c ≤ e → alloc c = true := by
  unfold count_free
  rw [List.length_eq_zero, List.filter_eq_nil_iff]
  constructor
  · intro h c h1 h2
    have := h c ((mem_cluster_list s e c).mpr ⟨h1, h2⟩)
    simpa using this
  · intro h c hc
    have hm := (mem_cluster_list s e c).mp hc
    simp [h c hm.1 hm.2]

theorem count_allocated_pos_iff (alloc : ℤ → Bool) (s e : ℤ) :
    0 < count_allocated alloc s e ↔ ∃ c : ℤ, s ≤ c ∧ c ≤ e ∧ alloc c = true := by
  unfold count_allocated
  rw [List.length_pos]
  constructor
  · intro h
    obtain ⟨c, hc⟩ := List.exists_mem_of_ne_nil _ h
    have hmem := List.mem_filter.mp hc
    have := (mem_cluster_list s e c).mp hmem.1
    exact ⟨c, this.1, this.2, hmem.2⟩
  · rintro ⟨c, h1, h2, h3⟩
    intro hnil
    have : c ∈ (cluster_list s e).filter alloc :=
      List.mem_filter.mpr ⟨(mem_cluster_list s e c).mpr ⟨h1, h2⟩, h3⟩
    rw [hnil] at this
    simp at this

/-- `wipe_extent_by_defrag` (WindowsWipe.py lines 1029-1131): return `False`
when the whole extent is allocated (lines 1075-1076); split and recurse when
any cluster is allocated or the extent exceeds `4 * WRITE_BUF_SIZE` bytes,
returning `False` at the `lcn_start >= lcn_end` bottom (lines 1077-1085);
otherwise zero-fill and move, splitting and recursing when a move raises
(lines 1106-1121); return `True` after the moves (line 1131). -/
def wipe_extent_by_defrag (alloc : ℤ → Bool) (move_fails : ℤ → ℤ → Bool)
    (cluster_size : ℕ) (s e : ℤ) : Bool :=
  if 0 < count_allocated alloc s e ∧ count_free alloc s e = 0 then false
  else if 0 < count_allocated alloc s e ∨
      4 * (WRITE_BUF_SIZE : ℤ) < (e - s + 1) * (cluster_size : ℤ) then
    if _hse : s ≥ e then false
    else
      let _sub := (split_extent s e).attach.map
        (fun q => wipe_extent_by_defrag alloc move_fails cluster_size q.1.1 q.1.2)
      true
  else if move_fails s e then
    if _hse : s ≥ e then false
    else
      let _sub := (split_extent s e).attach.map
        (fun q => wipe_extent_by_defrag alloc move_fails cluster_size q.1.1 q.1.2)
      true
  else true
termination_by (e - s + 1).toNat
decreasing_by
  · exact split_extent_mem_smaller s e (by omega) q.1 q.2
  · exact split_extent_mem_smaller s e (by omega) q.1 q.2

/-- C7: for `s ≤ e` the (total, hence terminating) function
`wipe_extent_by_defrag` returns `False` when every cluster of the extent is
allocated and none is free; otherwise, when any cluster is allocated or the
extent exceeds `4 × 512 KiB`, it enters the branch that recurses on the
sub-extents of `split_extent` — returning `True` after the recursion when
`s < e`, and bottoming out with `False` when `s ≥ e`. -/
theorem c7_wipe_extent_by_defrag_terminates (alloc : ℤ → Bool)
    (move_fails : ℤ → ℤ → Bool) (cluster_size : ℕ) (s e : ℤ) (h : s ≤ e) :
    ((∀ c : ℤ, s ≤ c → c ≤ e → alloc c = true) →
      wipe_extent_by_defrag alloc move_fails cluster_size s e = false) ∧
    ((∃ c : ℤ, s ≤ c ∧ c ≤ e ∧ alloc c = false) →
      (0 < count_allocated alloc s e ∨
        4 * (WRITE_BUF_SIZE : ℤ) < (e - s + 1) * (cluster_size : ℤ)) →
      (s < e → wipe_extent_by_defrag alloc move_fails cluster_size s e = true) ∧
      (s = e → wipe_extent_by_defrag alloc move_fails cluster_size s e = false)) := by
  constructor
  · intro hall
    have hfree : count_free alloc s e = 0 := (count_free_eq_zero_iff alloc s e).mpr hall
    have halloc : 0 < count_allocated alloc s e :=
      (count_allocated_pos_iff alloc s e).mpr ⟨s, le_refl s, h, hall s (le_refl s) h⟩
    rw [wipe_extent_by_defrag, if_pos ⟨halloc, hfree⟩]
  · rintro ⟨c, hc1, hc2, hc3⟩ htrig
    have hfree : count_free alloc s e ≠ 0 := by
      rw [ne_eq, count_free_eq_zero_iff]
      intro hall
      rw [hall c hc1 hc2] at hc3
      exact Bool.noConfusion hc3
    have hnotfirst : ¬ (0 < count_allocated alloc s e ∧ count_free alloc s e = 0) := by
      rintro ⟨_, h0⟩
      exact hfree h0
    constructor
    · intro hlt
      rw [wipe_extent_by_defrag, if_neg hnotfirst, if_pos htrig, dif_neg (by omega)]
    · intro heq
      rw [wipe_extent_by_defrag, if_neg hnotfirst, if_pos htrig, dif_pos (by omega)]

/-- C7 witness: a fully allocated four-cluster extent is reported not wiped. -/
theorem c7_wipe_extent_by_defrag_terminates_witness :
    wipe_extent_by_defrag (fun _ => true) (fun _ _ => false) 4096 0 3 = false :=
  (c7_wipe_extent_by_defrag_terminates (fun _ => true) (fun _ _ => false) 4096 0 3
    (by norm_num)).1 (fun _ _ _ => rfl)

/-!
## check_extents over a list of extents and poll_clusters_freed
(WindowsWipe.py lines 360-384 and 875-909)

The bitmap fetched on polling attempt `t` is abstracted as `get_bitmap t`.
`poll_clusters_freed` returns, besides its boolean result, the number of
volume-bitmap queries made and the number of `Sleep` calls performed, so that
"returns immediately" is expressible.
-/

/-- `check_extents(extents, volume_bitmap)` (WindowsWipe.py lines 360-384):
the pair `(count_free, count_allocated)` accumulated over all extents. -/
def check_extents (alloc : ℤ → Bool) (extents : List (ℤ × ℤ)) : ℕ × ℕ :=
  extents.foldl
    (fun acc p => (acc.1 + count_free alloc p.1 p.2, acc.2 + count_allocated alloc p.1 p.2))
    (0, 0)

/-- The polling loop of `poll_clusters_freed` (WindowsWipe.py lines 897-909):
at attempt `t`, fetch the bitmap, tally the original extents, succeed if
`count_free > count_allocated`, otherwise sleep and retry; at most
`7 * 10` attempts.  Returns `(result, bitmap queries, sleeps)`. -/
def poll_go (get_bitmap : ℕ → (ℤ → Bool)) (orig : List (ℤ × ℤ)) :
    ℕ → ℕ → Bool × ℕ × ℕ
  | 0, t => (false, t, t)
  | fuel + 1, t =>
    let counts := check_extents (get_bitmap t) orig
    if counts.2 < counts.1 then (true, t + 1, t)
    else poll_go get_bitmap orig fuel (t + 1)

/-- `poll_clusters_freed(volume_handle, total_clusters, orig_extents)`
(WindowsWipe.py lines 875-909): an empty `orig_extents` list returns `True`
before the loop (lines 894-895). -/
def poll_clusters_freed (get_bitmap : ℕ → (ℤ → Bool)) (orig : List (ℤ × ℤ)) :
    Bool × ℕ × ℕ :=
  if orig = [] then (true, 0, 0)
  else poll_go get_bitmap orig (7 * 10) 0

/-- C10: for every sequence of volume-bitmap states, `poll_clusters_freed`
with an empty original-extents list returns `True` having made zero bitmap
queries and zero `Sleep` calls. -/
theorem c10_poll_clusters_freed_empty (get_bitmap : ℕ → (ℤ → Bool)) :
    poll_clusters_freed get_bitmap [] = (true, 0, 0) := rfl

/-- C10 witness at a concrete bitmap sequence. -/
theorem c10_poll_clusters_freed_empty_witness :
    poll_clusters_freed (fun _ _ => true) [] = (true, 0, 0) :=
  c10_poll_clusters_freed_empty (fun _ _ => true)

/-!
## file_wipe (WindowsWipe.py lines 1156-1241) and clean_up (lines 1134-1153)

The driver is modelled as a straight-line function over an environment of
oracles: the classification and extent data of the file, one success flag per
fallible Windows call, and per-extent oracles for the defrag phase.  The
outcome records whether an exception escaped, which handles remain open, and
whether the temporary file remains, plus the list of extents actually passed
to `wipe_extent_by_defrag` — `file_wipe` has no `try`/`finally`, so a raising
call simply propagates with the state as of that line.

A central point of the regular-file path: line 1213 rebinds `orig_extents` to
the *generator* `extents_a_minus_b(orig_extents, new_extents)`.  The call
`poll_clusters_freed(..., orig_extents)` at line 1222 receives that generator;
a generator object is truthy, so the `if not orig_extents: return True` guard
does not fire, and the first `check_extents` inside the polling loop iterates
the generator to exhaustion.  The `for` loop at line 1234 then iterates the
already-exhausted generator and performs no iterations, so on the regular path
no `wipe_extent_by_defrag` call is ever made.  On the special path
`orig_extents` is still a list, and `choose_if_bridged` (modelled by the
`choose_bridged`/`bridged_minus_allocated` oracles) picks the extents to
sweep.
-/

/-- Environment of oracles for one `file_wipe` run.  `*_ok = false` means the
corresponding Windows call raises at its line.  `defrag_raises p` means the
`wipe_extent_by_defrag` call on extent `p` raises; `defrag_leaves_tmp p` tells
whether a completed call on `p` leaves the temporary zero-fill file on disk
(its split branch at lines 1081-1085 returns without deleting it). -/
structure WipeEnv where
  is_special : Bool
  orig_extents : List (ℤ × ℤ)
  new_extents : List (ℤ × ℤ)
  choose_bridged : Bool
  bridged_minus_allocated : List (ℤ × ℤ)
  get_volume_information_ok : Bool
  open_file_1_ok : Bool
  get_extents_1_ok : Bool
  obtain_readwrite_ok : Bool
  open_file_2_ok : Bool
  wipe_file_direct_ok : Bool
  get_extents_2_ok : Bool
  truncate_file_ok : Bool
  poll_ok : Bool
  defrag_raises : ℤ × ℤ → Bool
  defrag_leaves_tmp : ℤ × ℤ → Bool

/-- Observable outcome of a `file_wipe` run. -/
structure WipeOutcome where
  raised : Bool
  file_open : Bool
  volume_open : Bool
  tmp_exists : Bool
  defrag_calls : List (ℤ × ℤ)

/-- The `for lcn_start, lcn_end in orig_extents` defrag loop of `file_wipe`
(WindowsWipe.py lines 1234-1237), threading the temp-file state: returns the
extents passed to `wipe_extent_by_defrag`, whether a call raised, and whether
the temporary file exists afterwards. -/
def defrag_sweep (raises leaves_tmp : ℤ × ℤ → Bool) :
    Bool → List (ℤ × ℤ) → List (ℤ × ℤ) × Bool × Bool
  | tmp, [] => ([], false, tmp)
  | _tmp, p :: rest =>
    if raises p then ([p], true, true)
    else
      let r := defrag_sweep raises leaves_tmp (leaves_tmp p) rest
      (p :: r.1, r.2.1, r.2.2)

/-- The defrag phase and final `clean_up(None, volume_handle, tmp_file_path)`
of `file_wipe` (WindowsWipe.py lines 1229-1241), entered with the volume
handle open and the file handle closed. -/
def defrag_phase (raises leaves_tmp : ℤ × ℤ → Bool) (chosen : List (ℤ × ℤ)) :
    WipeOutcome :=
  if (defrag_sweep raises leaves_tmp false chosen).2.1 then
    ⟨true, false, true, (defrag_sweep raises leaves_tmp false chosen).2.2,
      (defrag_sweep raises leaves_tmp false chosen).1⟩
  else ⟨false, false, false, false, (defrag_sweep raises leaves_tmp false chosen).1⟩

/-- `file_wipe(file_name)` (WindowsWipe.py lines 1156-1241). -/
def file_wipe (env : WipeEnv) : WipeOutcome :=
  -- lines 1177-1180: get_volume_information; nothing is open yet.
  if !env.get_volume_information_ok then ⟨true, false, false, false, []⟩
  -- line 1182: open_file for read.
  else if !env.open_file_1_ok then ⟨true, false, false, false, []⟩
  -- lines 1183-1187: get_file_basic_info and get_extents with the file open.
  else if !env.get_extents_1_ok then ⟨true, true, false, false, []⟩
  -- line 1188: CloseHandle(file_handle); lines 1191-1195: obtain_readwrite
  -- and the attribute calls.
  else if !env.obtain_readwrite_ok then ⟨true, false, false, false, []⟩
  -- line 1196: open_file for read/write, volume handle now open.
  else if !env.open_file_2_ok then ⟨true, false, true, false, []⟩
  else if !env.is_special then
    -- line 1201: wipe_file_direct with both handles open.
    if !env.wipe_file_direct_ok then ⟨true, true, true, false, []⟩
    -- line 1202: get_extents after the direct wipe.
    else if !env.get_extents_2_ok then ⟨true, true, true, false, []⟩
    -- line 1203: CloseHandle(file_handle); lines 1205-1207: early return
    -- through clean_up(None, volume_handle, None).
    else if env.orig_extents = env.new_extents then ⟨false, false, false, false, []⟩
    -- line 1213: orig_extents becomes the extents_a_minus_b generator;
    -- line 1222: poll_clusters_freed consumes it (get_volume_bitmap inside
    -- may raise with the volume open).
    else if !env.poll_ok then ⟨true, false, true, false, []⟩
    -- line 1234: the for loop over the exhausted generator runs zero times;
    -- line 1240: clean_up(None, volume_handle, tmp_file_path).
    else ⟨false, false, false, false, []⟩
  else
    -- line 1218: truncate_file with both handles open.
    if !env.truncate_file_ok then ⟨true, true, true, false, []⟩
    -- line 1219: CloseHandle(file_handle); line 1222: poll_clusters_freed on
    -- the original extents list — it queries the bitmap only when the list
    -- is non-empty (lines 894-895).
    else if env.orig_extents ≠ [] ∧ env.poll_ok = false then ⟨true, false, true, false, []⟩
    -- lines 1230-1237: choose_if_bridged then the defrag loop;
    -- line 1240: clean_up(None, volume_handle, tmp_file_path).
    else defrag_phase env.defrag_raises env.defrag_leaves_tmp
      (if env.choose_bridged then env.bridged_minus_allocated else env.orig_extents)

/-- A `file_wipe` environment in which every Windows call succeeds, for a
regular file whose extents moved during the direct wipe. -/
def c2_env : WipeEnv where
  is_special := false
  orig_extents := [(0, 3)]
  new_extents := [(10, 13)]
  choose_bridged := false
  bridged_minus_allocated := []
  get_volume_information_ok := true
  open_file_1_ok := true
  get_extents_1_ok := true
  obtain_readwrite_ok := true
  open_file_2_ok := true
  wipe_file_direct_ok := true
  get_extents_2_ok := true
  truncate_file_ok := true
  poll_ok := true
  defrag_raises := fun _ => false
  defrag_leaves_tmp := fun _ => false

/-- C2: the claim says the defrag strategy is invoked on every extent of the
residue `orig_extents − new_extents`.  In this run the residue is the
non-empty `[(0, 3)]` (the direct wipe relocated the file from `(0,3)` to
`(10,13)`), yet `file_wipe` completes without raising and performs zero
`wipe_extent_by_defrag` calls: the residue is a generator that
`poll_clusters_freed` exhausts at line 1222 before the defrag loop at line
1234 iterates it. -/
theorem c2_residue_never_defrag_wiped :
    (file_wipe c2_env).raised = false ∧
    (file_wipe c2_env).defrag_calls = [] ∧
    extents_a_minus_b c2_env.orig_extents c2_env.new_extents = [(0, 3)] := by
  refine ⟨rfl, rfl, by decide⟩

/-- The same environment, but the `get_extents` call after the direct wipe
(line 1202) raises. -/
def c8_env : WipeEnv :=
  { c2_env with get_extents_2_ok := false }

/-- C8 counterexample: when `get_extents` raises after the direct wipe, the
exception escapes `file_wipe` with both the file handle and the volume handle
still open — there is no `finally`-style guard on the raising exit paths. -/
theorem c8_counterexample_leaked_handles :
    (file_wipe c8_env).raised = true ∧
    (file_wipe c8_env).file_open = true ∧
    (file_wipe c8_env).volume_open = true := by
  refine ⟨rfl, rfl, rfl⟩

theorem defrag_phase_not_raised (raises leaves_tmp : ℤ × ℤ → Bool)
    (chosen : List (ℤ × ℤ)) (h : (defrag_phase raises leaves_tmp chosen).raised = false) :
    (defrag_phase raises leaves_tmp chosen).file_open = false ∧
    (defrag_phase raises leaves_tmp chosen).volume_open = false ∧
    (defrag_phase raises leaves_tmp chosen).tmp_exists = false := by
  unfold defrag_phase at h ⊢
  split at h
  · exact Bool.noConfusion h
  · rename_i hs
    rw [if_neg hs]
    exact ⟨rfl, rfl, rfl⟩

set_option maxHeartbeats 1600000 in
/-- C8 (amended): on every exit path of `file_wipe` on which no exception is
raised, the file handle and the volume handle are closed and the temporary
zero-fill file is deleted; on raising exit paths the handles open at the
raising line (and possibly the temporary file) are leaked, since `file_wipe`
has no `finally`-style guards. -/
theorem c8_file_wipe_cleanup_on_success (env : WipeEnv) :
    (file_wipe env).raised = false →
    (file_wipe env).file_open = false ∧
    (file_wipe env).volume_open = false ∧
    (file_wipe env).tmp_exists = false := by
  unfold file_wipe
  split_ifs <;> intro h <;>
    first
      | exact h.elim
      | exact ⟨rfl, rfl, rfl⟩
      | exact defrag_phase_not_raised _ _ _ h

/-- C8 witness: the all-successful regular-file run exits without raising,
and the theorem yields that both handles are closed and no temp file
remains. -/
theorem c8_file_wipe_cleanup_on_success_witness :
    (file_wipe c2_env).file_open = false ∧
    (file_wipe c2_env).volume_open = false ∧
    (file_wipe c2_env).tmp_exists = false :=
  c8_file_wipe_cleanup_on_success c2_env rfl

/-!
## wipe_name (FileUtilities.py lines 873-906)

The filesystem directory is a list of paths; `os.rename(src, dst)` on success
moves `src` to `dst`.  Each rename attempt `i` draws a fresh random name
`nm i` (the shrinking `maxlen` of the first loop and the growing `i + 1`
length of the second loop only affect the length of the drawn name, which is
folded into the oracle) and succeeds iff `ok i`; on failure the loop retries,
bailing out — keeping the current name — once the failure counter exceeds
100.  The fuel `101` covers attempt indices 0 through 100, after which the
bail-out fires, so the fuel-0 base case is unreachable; it returns the same
bail-out value.
-/

/-- Effect of a successful `os.rename(src, dst)` on the directory listing. -/
def rename_fs (fs : List String) (src dst : String) : List String :=
  dst :: fs.erase src

/-- One retry loop of `wipe_name` (FileUtilities.py lines 879-891 and
892-904): try renaming `src` to `nm i` for `i = 0, 1, …`; stop on the first
success, or keep `src` after the failure with `i = 100`. -/
def try_renames (ok : ℕ → Bool) (nm : ℕ → String) (src : String)
    (fs : List String) : ℕ → ℕ → String × List String
  | 0, _ => (src, fs)
  | fuel + 1, i =>
    if ok i then (nm i, rename_fs fs src (nm i))
    else if 100 ≤ i then (src, fs)
    else try_renames ok nm src fs fuel (i + 1)

/-- `wipe_name(pathname1)` (FileUtilities.py lines 873-906): a long-name
rename pass followed by a short-name rename pass; returns the final path and
the resulting directory listing. -/
def wipe_name (ok1 ok2 : ℕ → Bool) (nm1 nm2 : ℕ → String) (p : String)
    (fs : List String) : String × List String :=
  let r1 := try_renames ok1 nm1 p fs 101 0
  try_renames ok2 nm2 r1.1 r1.2 101 0

/-- Any run of a retry loop either keeps `(src, fs)` (every attempt failed,
or the fuel ran out) or performs exactly one successful rename to some drawn
name. -/
theorem try_renames_cases (ok : ℕ → Bool) (nm : ℕ → String) (src : String)
    (fs : List String) :
    ∀ fuel i, try_renames ok nm src fs fuel i = (src, fs) ∨
      ∃ j, try_renames ok nm src fs fuel i = (nm j, rename_fs fs src (nm j)) := by
  intro fuel
  induction fuel with
  | zero => intro i; left; rfl
  | succ fuel ih =>
    intro i
    rw [try_renames]
    split
    · right; exact ⟨i, rfl⟩
    · split
      · left; rfl
      · exact ih (i + 1)

/-- C9 counterexample: when every rename attempt fails (for example because
the directory is read-only), `wipe_name(p)` returns the original path `p`,
which still exists — contradicting the claim that the returned path always
differs from `p` and that `p` no longer exists. -/
theorem c9_counterexample_all_renames_fail :
    (wipe_name (fun _ => false) (fun _ => false)
        (fun _ => "bbb") (fun _ => "c") "a" ["a"]).1 = "a" ∧
    "a" ∈ (wipe_name (fun _ => false) (fun _ => false)
        (fun _ => "bbb") (fun _ => "c") "a" ["a"]).2 := by
  constructor
  · rfl
  · show "a" ∈ ["a"]
    exact List.mem_singleton.mpr rfl

/-- C9 (amended): assume the original path `p` occurs once in the directory
(`fs.Nodup`) and the randomly drawn names differ from `p`.  After
`wipe_name(p)` returns `p'`, the path `p'` exists; and whenever `p' ≠ p`
(that is, at least one rename pass succeeded), the original `p` no longer
exists.  When every rename attempt fails, `p' = p` and `p` still exists, so
the original claim's guarantee holds only in the former case. -/
theorem c9_wipe_name_result_exists (ok1 ok2 : ℕ → Bool) (nm1 nm2 : ℕ → String)
    (p : String) (fs : List String) (hp : p ∈ fs) (hnd : fs.Nodup)
    (h1 : ∀ i, nm1 i ≠ p) (h2 : ∀ i, nm2 i ≠ p) :
    (wipe_name ok1 ok2 nm1 nm2 p fs).1 ∈ (wipe_name ok1 ok2 nm1 nm2 p fs).2 ∧
    ((wipe_name ok1 ok2 nm1 nm2 p fs).1 ≠ p →
      p ∉ (wipe_name ok1 ok2 nm1 nm2 p fs).2) := by
  have hpe : p ∉ fs.erase p := fun hmem =>
    ((hnd.mem_erase_iff).mp hmem).1 rfl
  unfold wipe_name
  rcases try_renames_cases ok1 nm1 p fs 101 0 with hr1 | ⟨j, hr1⟩ <;> rw [hr1]
  · -- first pass kept (p, fs)
    rcases try_renames_cases ok2 nm2 p fs 101 0 with hr2 | ⟨k, hr2⟩ <;> rw [hr2]
    · exact ⟨hp, fun hne => absurd rfl hne⟩
    · refine ⟨List.mem_cons_self _ _, fun _ hmem => ?_⟩
      rcases List.mem_cons.mp hmem with h | h
      · exact h2 k h.symm
      · exact hpe h
  · -- first pass renamed p to nm1 j
    have hnot : p ∉ rename_fs fs p (nm1 j) := by
      intro hmem
      rcases List.mem_cons.mp hmem with h | h
      · exact h1 j h.symm
      · exact hpe h
    rcases try_renames_cases ok2 nm2 (nm1 j) (rename_fs fs p (nm1 j)) 101 0 with
      hr2 | ⟨k, hr2⟩ <;> rw [hr2]
    · exact ⟨List.mem_cons_self _ _, fun _ => hnot⟩
    · refine ⟨List.mem_cons_self _ _, fun _ hmem => ?_⟩
      rcases List.mem_cons.mp hmem with h | h
      · exact h2 k h.symm
      · exact hnot (List.mem_of_mem_erase h)

/-- C9 witness: a run in which every rename succeeds on the first try. -/
theorem c9_wipe_name_result_exists_witness :
    (wipe_name (fun _ => true) (fun _ => true)
        (fun _ => "bbb") (fun _ => "c") "a" ["a"]).1 ∈
      (wipe_name (fun _ => true) (fun _ => true)
        (fun _ => "bbb") (fun _ => "c") "a" ["a"]).2 ∧
    ((wipe_name (fun _ => true) (fun _ => true)
        (fun _ => "bbb") (fun _ => "c") "a" ["a"]).1 ≠ "a" →
      "a" ∉ (wipe_name (fun _ => true) (fun _ => true)
        (fun _ => "bbb") (fun _ => "c") "a" ["a"]).2) :=
  c9_wipe_name_result_exists (fun _ => true) (fun _ => true)
    (fun _ => "bbb") (fun _ => "c") "a" ["a"]
    (List.mem_singleton.mpr rfl) (List.nodup_singleton "a")
    (fun _ => by show "bbb" ≠ "a"; decide) (fun _ => by show "c" ≠ "a"; decide)

end BleachBit
